import Mathlib

set_option maxHeartbeats 1000000

/-!
Shallow embedding of the identity-to-file mapping cache of
`pkg/storage/filesystem/unstructured/filefinder_mapped.go` and of the
filesystem event-concatenation engine exercised by the inotify package
test (`TestEventConcatenation`).

Go maps are embedded as association lists (for the branch view, whose
entries the cache enumerates) and as `String → Option _` functions (for
the path view, which is only ever indexed pointwise).  Go's
`UnversionedObjectIDSet` is embedded as `Finset UnversionedObjectID`.
The `contentTyper`, `fs` and `mu` fields of `GenericFileFinder` carry no
cache state and are omitted; locking is irrelevant to the sequential
semantics embedded here.
-/

/-- GroupKind mirrors `core.GroupKind`: a group/kind pair of strings. -/
structure GroupKind where
  group : String
  kind : String
deriving DecidableEq

/-- ObjectKey mirrors `core.ObjectKey`: the Go fields `Name` and
`Namespace` (the latter called `ns` here, since `namespace` is a Lean
keyword). -/
structure ObjectKey where
  name : String
  ns : String
deriving DecidableEq

/-- UnversionedObjectID mirrors `core.UnversionedObjectID`: a GroupKind
together with an ObjectKey. -/
structure UnversionedObjectID where
  groupKind : GroupKind
  objectKey : ObjectKey
deriving DecidableEq

/-- ChecksumPath mirrors the `ChecksumPath` struct: a path relative to the
watched root plus a content checksum. -/
structure ChecksumPath where
  path : String
  checksum : String
deriving DecidableEq

/-- FinderErr models the error values appearing in the file-finder API:
`ErrNotTracked` ("untracked object"), `core.NewErrNotFound(id)` ("object
does not exist"), and `core.ErrNamespacedMismatch` (the namespace scope
mismatch error class that `ListObjectIDs`' documentation promises). -/
inductive FinderErr where
  | notTracked
  | notFound (id : UnversionedObjectID)
  | namespaceScopeMismatch
deriving DecidableEq

/-- Branch is the identity partition held by the finder's `branch` field.
Modelled from the spec: the `branchImpl` type itself is not among the
provided sources; the spec describes it as the `identity → ChecksumPath`
view, internally partitioned by group/kind and namespace.  It is embedded
as an association list with at most one entry per identity (Go map
semantics), the partitions being recovered by filtering. -/
abbrev Branch := List (UnversionedObjectID × ChecksumPath)

/-- lookupBranch looks an identity up in the branch view; it models the
`branch.groupKind(gk).namespace(ns).name(name)` access chain. -/
def lookupBranch : Branch → UnversionedObjectID → Option ChecksumPath
  | [], _ => none
  | e :: rest, id => if e.1 = id then some e.2 else lookupBranch rest id

/-- eraseBranch removes an identity's entry from the branch view; it
models the `deleteName` access chain. -/
def eraseBranch : Branch → UnversionedObjectID → Branch
  | [], _ => []
  | e :: rest, id =>
    if e.1 = id then eraseBranch rest id else e :: eraseBranch rest id

/-- setBranchName overwrites an identity's entry in the branch view; it
models the `setName` access chain (Go map assignment: last write wins). -/
def setBranchName (b : Branch) (id : UnversionedObjectID)
    (cp : ChecksumPath) : Branch :=
  (id, cp) :: eraseBranch b id

/-- idsInNamespace collects the identities of the given GroupKind and
namespace from the branch view, as `ListObjectIDs` reconstructs them from
the names stored in the `gk`/`namespace` partition. -/
def idsInNamespace : Branch → GroupKind → String → List UnversionedObjectID
  | [], _, _ => []
  | e :: rest, gk, ns =>
    if e.1.groupKind = gk ∧ e.1.objectKey.ns = ns then
      e.1 :: idsInNamespace rest gk ns
    else
      idsInNamespace rest gk ns

/-- Except values are compared for equality in concrete evaluations, so
equip them with decidable equality. -/
instance instDecidableEqExcept {ε α : Type} [DecidableEq ε] [DecidableEq α] :
    DecidableEq (Except ε α)
  | .ok a, .ok b =>
    if h : a = b then isTrue (h ▸ rfl)
    else isFalse (fun hc => h (Except.ok.inj hc))
  | .ok _, .error _ => isFalse (fun hc => Except.noConfusion hc)
  | .error _, .ok _ => isFalse (fun hc => Except.noConfusion hc)
  | .error a, .error b =>
    if h : a = b then isTrue (h ▸ rfl)
    else isFalse (fun hc => h (Except.error.inj hc))

/-- GenericFileFinder mirrors the mutable cache state of the Go struct of
the same name: the `branch` view (identity → ChecksumPath) and the
`pathToIDs` view (path → set of identities). -/
@[ext]
structure GenericFileFinder where
  branch : Branch
  pathToIDs : String → Option (Finset UnversionedObjectID)

/-- emptyFinder is the state `NewGenericFileFinder` creates: an empty
branch and an empty `pathToIDs` map. -/
def emptyFinder : GenericFileFinder :=
  { branch := [], pathToIDs := fun _ => none }

/-- getMapping mirrors `getMapping` (filefinder_mapped.go lines 141-147):
the branch-view lookup for an identity. -/
def getMapping (f : GenericFileFinder) (id : UnversionedObjectID) :
    Option ChecksumPath :=
  lookupBranch f.branch id

/-- GetMapping mirrors `GetMapping` (lines 134-138), which is `getMapping`
under the read lock. -/
def GetMapping (f : GenericFileFinder) (id : UnversionedObjectID) :
    Option ChecksumPath :=
  getMapping f id

/-- ObjectPath mirrors `ObjectPath` (lines 71-78): the mapped path on a
hit, and on a miss the aggregate error `[ErrNotTracked, ErrNotFound id]`. -/
def ObjectPath (f : GenericFileFinder) (id : UnversionedObjectID) :
    Except (List FinderErr) String :=
  match GetMapping f id with
  | none => .error [FinderErr.notTracked, FinderErr.notFound id]
  | some cp => .ok cp.path

/-- ObjectsAt mirrors `ObjectsAt` (lines 81-92): the identity set stored
under a path, or `ErrNotTracked` when the path has no entry. -/
def ObjectsAt (f : GenericFileFinder) (path : String) :
    Except FinderErr (Finset UnversionedObjectID) :=
  match f.pathToIDs path with
  | none => .error FinderErr.notTracked
  | some ids => .ok ids

/-- ListObjectIDs mirrors `ListObjectIDs` (lines 121-131): it reads the
names stored in the branch partition for the given GroupKind and
namespace and rebuilds identities from them.  The Go implementation
performs no namespace-scope check and its error result is always `nil`,
which the always-`ok` result embeds. -/
def ListObjectIDs (f : GenericFileFinder) (gk : GroupKind) (ns : String) :
    Except FinderErr (Finset UnversionedObjectID) :=
  .ok (idsInNamespace f.branch gk ns).toFinset

/-- SetMapping mirrors `SetMapping` (lines 150-166): overwrite the branch
entry for `id`, create the `pathToIDs` entry for `cp.path` if missing, and
insert `id` there.  Note the Go code does not touch the `pathToIDs` entry
of any previously mapped path of `id`. -/
def SetMapping (f : GenericFileFinder) (id : UnversionedObjectID)
    (cp : ChecksumPath) : GenericFileFinder :=
  { branch := setBranchName f.branch id cp,
    pathToIDs := fun p =>
      if p = cp.path then
        some (insert id ((f.pathToIDs cp.path).getD ∅))
      else
        f.pathToIDs p }

/-- DeleteMapping mirrors `DeleteMapping` (lines 178-198): a no-op when
`id` has no branch entry; otherwise erase the branch entry, remove `id`
from the identity set of its mapped path, and drop that path's entry
entirely when the set shrinks to zero (Go's delete-from-possibly-nil-map
semantics at a missing key are the same no-op this embedding produces). -/
def DeleteMapping (f : GenericFileFinder) (id : UnversionedObjectID) :
    GenericFileFinder :=
  match getMapping f id with
  | none => f
  | some cp =>
    let remaining := ((f.pathToIDs cp.path).getD ∅).erase id
    { branch := eraseBranch f.branch id,
      pathToIDs := fun p =>
        if p = cp.path then
          if remaining = ∅ then none else some remaining
        else
          f.pathToIDs p }

/-- ResetMappings mirrors `ResetMappings` (lines 169-174): replace the
branch with a fresh empty one, then run `SetMapping` for every entry of
the argument map.  The Go map argument, iterated in unspecified order, is
embedded as an association list. -/
def ResetMappings (f : GenericFileFinder)
    (m : List (UnversionedObjectID × ChecksumPath)) : GenericFileFinder :=
  m.foldl (fun acc e => SetMapping acc e.1 e.2) { f with branch := [] }

/-- ReachableSD holds for the cache states reachable from the empty cache
by `SetMapping` and `DeleteMapping` calls. -/
inductive ReachableSD : GenericFileFinder → Prop where
  | empty : ReachableSD emptyFinder
  | set (f : GenericFileFinder) (id : UnversionedObjectID)
      (cp : ChecksumPath) : ReachableSD f → ReachableSD (SetMapping f id cp)
  | del (f : GenericFileFinder) (id : UnversionedObjectID) :
      ReachableSD f → ReachableSD (DeleteMapping f id)

/-- ReachableCache holds for the cache states reachable from the empty
cache by `SetMapping`, `DeleteMapping` and `ResetMappings` calls. -/
inductive ReachableCache : GenericFileFinder → Prop where
  | empty : ReachableCache emptyFinder
  | set (f : GenericFileFinder) (id : UnversionedObjectID)
      (cp : ChecksumPath) :
      ReachableCache f → ReachableCache (SetMapping f id cp)
  | del (f : GenericFileFinder) (id : UnversionedObjectID) :
      ReachableCache f → ReachableCache (DeleteMapping f id)
  | reset (f : GenericFileFinder)
      (m : List (UnversionedObjectID × ChecksumPath)) :
      ReachableCache f → ReachableCache (ResetMappings f m)

/-- ForwardInv is the forward half of the §3 invariant: every identity the
branch view maps to some ChecksumPath is a member of the identity set
stored under that ChecksumPath's path. -/
def ForwardInv (f : GenericFileFinder) : Prop :=
  ∀ id cp, getMapping f id = some cp →
    ∃ t, f.pathToIDs cp.path = some t ∧ id ∈ t

/-- MappingConsistent is the full §3 invariant: the forward half, plus the
reverse half stating that no identity appears in `pathToIDs` under a path
it is not currently mapped to. -/
def MappingConsistent (f : GenericFileFinder) : Prop :=
  ForwardInv f ∧
    ∀ p t id, f.pathToIDs p = some t → id ∈ t →
      ∃ cp, getMapping f id = some cp ∧ cp.path = p

/-- PathInv states that every path present in the `pathToIDs` view maps to
a non-empty identity set. -/
def PathInv (f : GenericFileFinder) : Prop :=
  ∀ p t, f.pathToIDs p = some t → t ≠ ∅

/-- carGK is a sample GroupKind used for concrete evaluations. -/
def carGK : GroupKind := { group := "sample", kind := "Car" }

/-- carID is a sample root-scoped identity (empty namespace). -/
def carID : UnversionedObjectID :=
  { groupKind := carGK, objectKey := { name := "car1", ns := "" } }

/-- otherID is a second sample root-scoped identity. -/
def otherID : UnversionedObjectID :=
  { groupKind := carGK, objectKey := { name := "car2", ns := "" } }

/-- cpA is a sample ChecksumPath with path "a". -/
def cpA : ChecksumPath := { path := "a", checksum := "h1" }

/-- cpB is a sample ChecksumPath with path "b". -/
def cpB : ChecksumPath := { path := "b", checksum := "h2" }

/-- remapState is the state reached from the empty cache by mapping
`carID` to path "a" and then remapping it to path "b". -/
def remapState : GenericFileFinder :=
  SetMapping (SetMapping emptyFinder carID cpA) carID cpB

/-- NotifyKind is the closed variant of raw per-path filesystem
notification kinds (§4.2 / §6): `Write` (inotify InCloseWrite), `Delete`
(InDelete), `MoveIn` (InMovedTo) and `MoveOut` (InMovedFrom). -/
inductive NotifyKind where
  | write
  | delete
  | moveIn
  | moveOut
deriving DecidableEq

/-- FileEventType is the concatenation engine's output alphabet:
`watch.FileEventModify`, `watch.FileEventMove`, `watch.FileEventDelete`. -/
inductive FileEventType where
  | modify
  | move
  | delete
deriving DecidableEq

/-- mergeTag is step 2d of the concatenation algorithm.  Modelled from the
spec: the `concatenateEvents` implementation of the inotify package is not
among the provided sources, only its test; §4.2 defines the merge of a tag
`t` against the output stack (head is the stack top).  The spec only ever
merges the tags Modify and Delete (Move is pushed directly in step 2a);
the unreachable Move-tag rows are given the push behaviour of step 2a. -/
def mergeTag (stack : List FileEventType) (t : FileEventType) :
    List FileEventType :=
  match stack, t with
  | [], _ => [t]
  | .move :: rest, _ => t :: .move :: rest
  | .delete :: rest, .modify => .modify :: rest
  | .modify :: rest, .delete => rest
  | .delete :: rest, .delete => .delete :: rest
  | .modify :: rest, .modify => .modify :: rest
  | top :: rest, .move => .move :: top :: rest

/-- concatStep is one iteration of the concatenation algorithm's single
left-to-right pass (§4.2 step 2).  Modelled from the spec: the state is
the output stack (head is the top) plus the `pendingMoveIn` flag.  A
pending MoveIn paired by a MoveOut pushes Move with no further merge
(step 2a); an unpaired pending MoveIn is resolved as Modify before the
current notification is classified (step 2b); MoveIn defers (step 2c);
Write and Delete merge their tags (step 2d).  A MoveOut with no pending
MoveIn is not given a meaning by the spec and is embedded as a no-op. -/
def concatStep (s : List FileEventType × Bool) (e : NotifyKind) :
    List FileEventType × Bool :=
  match s.2, e with
  | true, .moveOut => (.move :: s.1, false)
  | true, .moveIn => (mergeTag s.1 .modify, true)
  | true, .write => (mergeTag (mergeTag s.1 .modify) .modify, false)
  | true, .delete => (mergeTag (mergeTag s.1 .modify) .delete, false)
  | false, .moveIn => (s.1, true)
  | false, .moveOut => (s.1, false)
  | false, .write => (mergeTag s.1 .modify, false)
  | false, .delete => (mergeTag s.1 .delete, false)

/-- finishConcat is steps 3 and 4 of the algorithm: a still-pending MoveIn
is resolved as Modify against the stack top, and the stack is returned in
the order its entries were finalized (bottom first). -/
def finishConcat : List FileEventType × Bool → List FileEventType
  | (stack, pending) =>
    (if pending then mergeTag stack .modify else stack).reverse

/-- concatenateEvents is the Event Concatenation Engine.  Modelled from
the spec (§4.2): reduce an ordered burst of raw notifications to the
minimal ordered sequence of semantic file event types. -/
def concatenateEvents (events : List NotifyKind) : List FileEventType :=
  finishConcat (events.foldl concatStep ([], false))

/-- expandTag re-expands an output tag to its source raw kind(s):
`Modify → Write`, `Delete → Delete`, `Move →` a MoveIn immediately
followed by a MoveOut. -/
def expandTag : FileEventType → List NotifyKind
  | .modify => [.write]
  | .delete => [.delete]
  | .move => [.moveIn, .moveOut]

/-- expandEvents re-expands a whole engine output sequence to a raw
notification burst, tag by tag. -/
def expandEvents : List FileEventType → List NotifyKind
  | [] => []
  | t :: rest => expandTag t ++ expandEvents rest

/-- moveAdj relates two adjacent stack entries when at least one of them
is Move; engine outputs never place two non-Move entries side by side. -/
def moveAdj (a b : FileEventType) : Prop :=
  a = FileEventType.move ∨ b = FileEventType.move

/-- Branch lookup after an erase: the erased identity is gone, all others
are untouched. -/
theorem lookupBranch_eraseBranch (b : Branch) (id j : UnversionedObjectID) :
    lookupBranch (eraseBranch b id) j =
      if j = id then none else lookupBranch b j := by
  induction b with
  | nil => simp [eraseBranch, lookupBranch]
  | cons e rest ih =>
    simp only [eraseBranch]
    split
    next h =>
      rw [ih]
      by_cases hj : j = id
      · simp [hj]
      · have he : ¬ e.1 = j := fun hc => hj (hc.symm.trans h)
        simp [lookupBranch, hj, he]
    next h =>
      simp only [lookupBranch]
      rw [ih]
      by_cases he : e.1 = j
      · have hj : ¬ j = id := fun hc => h (he.trans hc)
        simp [he, hj]
      · simp [he]

/-- Branch lookup after an overwrite: the written identity reads back the
new value, all others are untouched. -/
theorem lookupBranch_setBranchName (b : Branch) (id : UnversionedObjectID)
    (cp : ChecksumPath) (j : UnversionedObjectID) :
    lookupBranch (setBranchName b id cp) j =
      if j = id then some cp else lookupBranch b j := by
  simp only [setBranchName, lookupBranch, lookupBranch_eraseBranch]
  by_cases hj : j = id
  · simp [hj]
  · have hij : ¬ id = j := fun hc => hj hc.symm
    simp [hj, hij]

/-- Erasing an identity twice is the same as erasing it once. -/
theorem eraseBranch_idem (b : Branch) (id : UnversionedObjectID) :
    eraseBranch (eraseBranch b id) id = eraseBranch b id := by
  induction b with
  | nil => rfl
  | cons e rest ih =>
    by_cases h : e.1 = id <;> simp [eraseBranch, h, ih]

/-- Identity-view lookup after a SetMapping call. -/
theorem getMapping_SetMapping (f : GenericFileFinder)
    (id : UnversionedObjectID) (cp : ChecksumPath)
    (j : UnversionedObjectID) :
    getMapping (SetMapping f id cp) j =
      if j = id then some cp else getMapping f j := by
  simp [getMapping, SetMapping, lookupBranch_setBranchName]

/-- Path-view contents after a SetMapping call. -/
theorem pathToIDs_SetMapping (f : GenericFileFinder)
    (id : UnversionedObjectID) (cp : ChecksumPath) (p : String) :
    (SetMapping f id cp).pathToIDs p =
      if p = cp.path then
        some (insert id ((f.pathToIDs cp.path).getD ∅))
      else
        f.pathToIDs p := rfl

/-- DeleteMapping on an untracked identity is the exact identity on the
whole state. -/
theorem DeleteMapping_not_tracked (f : GenericFileFinder)
    (id : UnversionedObjectID) (h : getMapping f id = none) :
    DeleteMapping f id = f := by
  simp [DeleteMapping, h]

/-- DeleteMapping on a tracked identity erases the branch entry and
shrinks (or prunes) the mapped path's identity set. -/
theorem DeleteMapping_tracked (f : GenericFileFinder)
    (id : UnversionedObjectID) (cp : ChecksumPath)
    (h : getMapping f id = some cp) :
    DeleteMapping f id =
      { branch := eraseBranch f.branch id,
        pathToIDs := fun p =>
          if p = cp.path then
            if ((f.pathToIDs cp.path).getD ∅).erase id = ∅ then none
            else some (((f.pathToIDs cp.path).getD ∅).erase id)
          else
            f.pathToIDs p } := by
  simp [DeleteMapping, h]

/-- SetMapping preserves the forward half of the view invariant. -/
theorem forwardInv_SetMapping (f : GenericFileFinder)
    (id : UnversionedObjectID) (cp : ChecksumPath) (h : ForwardInv f) :
    ForwardInv (SetMapping f id cp) := by
  intro j cpj hj
  rw [getMapping_SetMapping] at hj
  by_cases hji : j = id
  · rw [if_pos hji] at hj
    subst hji
    obtain rfl := Option.some.inj hj
    refine ⟨insert j ((f.pathToIDs cp.path).getD ∅), ?_,
      Finset.mem_insert_self _ _⟩
    rw [pathToIDs_SetMapping, if_pos rfl]
  · rw [if_neg hji] at hj
    obtain ⟨t, ht, hmem⟩ := h j cpj hj
    by_cases hp : cpj.path = cp.path
    · rw [hp] at ht
      refine ⟨insert id ((f.pathToIDs cp.path).getD ∅),
        by simp [pathToIDs_SetMapping, hp], ?_⟩
      rw [ht]
      exact Finset.mem_insert_of_mem hmem
    · exact ⟨t, by rw [pathToIDs_SetMapping, if_neg hp]; exact ht, hmem⟩

/-- DeleteMapping preserves the forward half of the view invariant. -/
theorem forwardInv_DeleteMapping (f : GenericFileFinder)
    (id : UnversionedObjectID) (h : ForwardInv f) :
    ForwardInv (DeleteMapping f id) := by
  cases hm : getMapping f id with
  | none => rw [DeleteMapping_not_tracked f id hm]; exact h
  | some cp =>
    intro j cpj hj
    rw [DeleteMapping_tracked f id cp hm] at hj ⊢
    rw [getMapping] at hj
    simp only [lookupBranch_eraseBranch] at hj
    by_cases hji : j = id
    · rw [if_pos hji] at hj; exact absurd hj (by simp)
    · rw [if_neg hji] at hj
      obtain ⟨t, ht, hmem⟩ := h j cpj hj
      by_cases hp : cpj.path = cp.path
      · have hmem' : j ∈ ((f.pathToIDs cp.path).getD ∅).erase id := by
          rw [hp] at ht
          rw [ht]
          exact Finset.mem_erase.mpr ⟨hji, hmem⟩
        refine ⟨((f.pathToIDs cp.path).getD ∅).erase id, ?_, hmem'⟩
        show (if cpj.path = cp.path then
            if ((f.pathToIDs cp.path).getD ∅).erase id = ∅ then none
            else some (((f.pathToIDs cp.path).getD ∅).erase id)
          else f.pathToIDs cpj.path) =
            some (((f.pathToIDs cp.path).getD ∅).erase id)
        rw [if_pos hp, if_neg (Finset.ne_empty_of_mem hmem')]
      · refine ⟨t, ?_, hmem⟩
        show (if cpj.path = cp.path then
            if ((f.pathToIDs cp.path).getD ∅).erase id = ∅ then none
            else some (((f.pathToIDs cp.path).getD ∅).erase id)
          else f.pathToIDs cpj.path) = some t
        rw [if_neg hp]
        exact ht

/-- SetMapping preserves non-emptiness of all path-view entries. -/
theorem pathInv_SetMapping (f : GenericFileFinder)
    (id : UnversionedObjectID) (cp : ChecksumPath) (h : PathInv f) :
    PathInv (SetMapping f id cp) := by
  intro p t ht
  rw [pathToIDs_SetMapping] at ht
  by_cases hp : p = cp.path
  · rw [if_pos hp] at ht
    obtain rfl := Option.some.inj ht
    exact Finset.insert_ne_empty _ _
  · rw [if_neg hp] at ht
    exact h p t ht

/-- DeleteMapping preserves non-emptiness of all path-view entries. -/
theorem pathInv_DeleteMapping (f : GenericFileFinder)
    (id : UnversionedObjectID) (h : PathInv f) :
    PathInv (DeleteMapping f id) := by
  cases hm : getMapping f id with
  | none => rw [DeleteMapping_not_tracked f id hm]; exact h
  | some cp =>
    intro p t ht
    rw [DeleteMapping_tracked f id cp hm] at ht
    have ht' : (if p = cp.path then
        if ((f.pathToIDs cp.path).getD ∅).erase id = ∅ then none
        else some (((f.pathToIDs cp.path).getD ∅).erase id)
      else f.pathToIDs p) = some t := ht
    by_cases hp : p = cp.path
    · rw [if_pos hp] at ht'
      by_cases hz : ((f.pathToIDs cp.path).getD ∅).erase id = ∅
      · rw [if_pos hz] at ht'
        exact absurd ht' (by simp)
      · rw [if_neg hz] at ht'
        obtain rfl := Option.some.inj ht'
        exact hz
    · rw [if_neg hp] at ht'
      exact h p t ht'

/-- The SetMapping fold inside ResetMappings preserves non-emptiness of
all path-view entries. -/
theorem pathInv_foldl (m : List (UnversionedObjectID × ChecksumPath)) :
    ∀ g : GenericFileFinder, PathInv g →
      PathInv (m.foldl (fun acc e => SetMapping acc e.1 e.2) g) := by
  induction m with
  | nil => intro g hg; exact hg
  | cons e rest ih =>
    intro g hg
    exact ih _ (pathInv_SetMapping g e.1 e.2 hg)

/-- ResetMappings preserves non-emptiness of all path-view entries (it
never removes a path-view entry at all). -/
theorem pathInv_ResetMappings (f : GenericFileFinder)
    (m : List (UnversionedObjectID × ChecksumPath)) (h : PathInv f) :
    PathInv (ResetMappings f m) :=
  pathInv_foldl m { f with branch := [] } h

/-- Identity-view lookups are untouched by the SetMapping fold for any
identity that is not a key of the folded list. -/
theorem getMapping_foldl_not_mem
    (m : List (UnversionedObjectID × ChecksumPath)) :
    ∀ (g : GenericFileFinder) (id : UnversionedObjectID),
      id ∉ m.map Prod.fst →
      getMapping (m.foldl (fun acc e => SetMapping acc e.1 e.2) g) id =
        getMapping g id := by
  induction m with
  | nil => intro g id _; rfl
  | cons e rest ih =>
    intro g id hid
    rw [List.map_cons, List.mem_cons] at hid
    push_neg at hid
    rw [List.foldl_cons, ih _ id hid.2, getMapping_SetMapping,
      if_neg hid.1]

/-- Identity-view lookups after the SetMapping fold return the folded
value of any key of the list, provided the keys are distinct. -/
theorem getMapping_foldl_mem
    (m : List (UnversionedObjectID × ChecksumPath)) :
    ∀ (g : GenericFileFinder) (id : UnversionedObjectID)
      (cp : ChecksumPath),
      (m.map Prod.fst).Nodup → (id, cp) ∈ m →
      getMapping (m.foldl (fun acc e => SetMapping acc e.1 e.2) g) id =
        some cp := by
  induction m with
  | nil => intro g id cp _ hmem; exact absurd hmem (by simp)
  | cons e rest ih =>
    intro g id cp hnd hmem
    rw [List.map_cons, List.nodup_cons] at hnd
    rw [List.mem_cons] at hmem
    cases hmem with
    | inl he =>
      obtain rfl : e = (id, cp) := he.symm
      rw [List.foldl_cons, getMapping_foldl_not_mem rest _ id hnd.1,
        getMapping_SetMapping, if_pos rfl]
    | inr hr =>
      rw [List.foldl_cons]
      exact ih _ id cp hnd.2 hr

/-- C1 (amended): starting from the empty Mapping Cache, after every call
in any sequence of SetMapping and DeleteMapping calls the forward half of
the invariant holds: for every (id, cp) in the identity-to-ChecksumPath
view, id is a member of pathToIDs[cp.Path].  (The reverse half of the
claimed invariant, that no identity appears under a path it is not
currently mapped to, is refuted by the counterexample below: SetMapping
never removes an identity from the set of its previous path.) -/
theorem c1_views_consistent_amended (f : GenericFileFinder)
    (h : ReachableSD f) : ForwardInv f := by
  induction h with
  | empty =>
    intro id cp hc
    exact absurd hc (by simp [getMapping, emptyFinder, lookupBranch])
  | set f id cp _ ih => exact forwardInv_SetMapping f id cp ih
  | del f id _ ih => exact forwardInv_DeleteMapping f id ih

/-- Witness for C1 (amended) at the concrete reachable state with carID
mapped to path "a". -/
theorem c1_views_consistent_amended_witness :
    ∃ t, (SetMapping emptyFinder carID cpA).pathToIDs cpA.path = some t ∧
      carID ∈ t :=
  c1_views_consistent_amended _
    (ReachableSD.set _ carID cpA ReachableSD.empty) carID cpA (by decide)

/-- C1 counterexample: the two-call sequence SetMapping(carID, path "a");
SetMapping(carID, path "b") reaches a state violating the full claimed
invariant: carID still appears in pathToIDs["a"] although its current
mapping is path "b". -/
theorem c1_counterexample :
    ReachableSD remapState ∧ ¬ MappingConsistent remapState := by
  constructor
  · exact ReachableSD.set _ carID cpB
      (ReachableSD.set _ carID cpA ReachableSD.empty)
  · intro hc
    obtain ⟨cp, hcp, hpath⟩ :=
      hc.2 "a" {carID} carID (by decide) (by decide)
    have hB : getMapping remapState carID = some cpB := by decide
    rw [hB] at hcp
    obtain rfl := Option.some.inj hcp
    exact absurd hpath (by decide)

/-- C2 (amended): SetMapping(id, cp) is an idempotent upsert that updates
the identity view and inserts id under the new path: afterwards
GetMapping(id) returns cp, id is present in the identity set under
cp.Path, and repeating the call leaves the state unchanged.  (The claimed
removal of id from its old path's identity set — with pruning of the old
path's entry — does not happen; see the counterexample below.) -/
theorem c2_setMapping_upsert_amended (f : GenericFileFinder)
    (id : UnversionedObjectID) (cp : ChecksumPath) :
    GetMapping (SetMapping f id cp) id = some cp ∧
    (∃ t, (SetMapping f id cp).pathToIDs cp.path = some t ∧ id ∈ t) ∧
    SetMapping (SetMapping f id cp) id cp = SetMapping f id cp := by
  refine ⟨?_, ?_, ?_⟩
  · rw [GetMapping, getMapping_SetMapping, if_pos rfl]
  · exact ⟨insert id ((f.pathToIDs cp.path).getD ∅),
      by rw [pathToIDs_SetMapping, if_pos rfl], Finset.mem_insert_self _ _⟩
  · apply GenericFileFinder.ext
    · show setBranchName (setBranchName f.branch id cp) id cp =
        setBranchName f.branch id cp
      simp only [setBranchName]
      congr 1
      simp [eraseBranch, eraseBranch_idem]
    · funext p
      simp only [pathToIDs_SetMapping]
      by_cases hp : p = cp.path
      · simp [hp, Finset.insert_idem]
      · simp [hp]

/-- C2 counterexample: after SetMapping(carID, path "a") followed by
SetMapping(carID, path "b"), the current mapping is path "b" yet carID
has not been removed from the identity set of the old path "a". -/
theorem c2_counterexample :
    GetMapping remapState carID = some cpB ∧ cpB.path ≠ "a" ∧
      remapState.pathToIDs "a" = some {carID} ∧
      carID ∈ ({carID} : Finset UnversionedObjectID) := by decide

/-- C3 (code bug evaluation): ResetMappings replaces only the branch view;
the stale pathToIDs entry survives.  From the state with carID mapped to
path "a", ResetMappings(∅) leaves ObjectsAt("a") returning {carID} with no
error — although no mapping at all remains in the identity view — instead
of the not-tracked failure the claim (and the function's own comment,
"replaces all mappings at once") requires. -/
theorem c3_resetMappings_stale_path :
    ObjectsAt (ResetMappings (SetMapping emptyFinder carID cpA) [])
        cpA.path = Except.ok {carID} ∧
    GetMapping (ResetMappings (SetMapping emptyFinder carID cpA) [])
        carID = none := by decide

/-- C4 (code bug evaluation): ListObjectIDs never fails.  Its Go error
result is always nil — the namespace-scope check its documentation
promises is absent — so a root-scoped GroupKind queried with the
non-empty namespace "default" yields an ok (empty) identity set, not a
NamespaceScopeMismatch error. -/
theorem c4_listObjectIDs_no_scope_error :
    (∀ (f : GenericFileFinder) (gk : GroupKind) (ns : String),
      ∃ ids, ListObjectIDs f gk ns = Except.ok ids) ∧
    ListObjectIDs (SetMapping emptyFinder carID cpA) carGK "default" =
      Except.ok ∅ :=
  ⟨fun _ _ _ => ⟨_, rfl⟩, by decide⟩

/-- C6: after ResetMappings(M) — with M's keys distinct, as a Go map's
keys are — GetMapping returns exactly M[id] for every id in M, and
not-found for every id not in M, whatever the prior cache state. -/
theorem c6_resetMappings_getMapping (f : GenericFileFinder)
    (m : List (UnversionedObjectID × ChecksumPath))
    (hnd : (m.map Prod.fst).Nodup) :
    (∀ id cp, (id, cp) ∈ m →
      GetMapping (ResetMappings f m) id = some cp) ∧
    (∀ id, id ∉ m.map Prod.fst →
      GetMapping (ResetMappings f m) id = none) := by
  constructor
  · intro id cp hmem
    rw [GetMapping, ResetMappings]
    exact getMapping_foldl_mem m _ id cp hnd hmem
  · intro id hid
    rw [GetMapping, ResetMappings, getMapping_foldl_not_mem m _ id hid]
    rfl

/-- Witness for C6 at the concrete input replacing a cache that maps
carID by the single-entry map {otherID ↦ path "b"}. -/
theorem c6_resetMappings_getMapping_witness :
    GetMapping (ResetMappings (SetMapping emptyFinder carID cpA)
        [(otherID, cpB)]) otherID = some cpB ∧
    GetMapping (ResetMappings (SetMapping emptyFinder carID cpA)
        [(otherID, cpB)]) carID = none := by
  have h := c6_resetMappings_getMapping (SetMapping emptyFinder carID cpA)
    [(otherID, cpB)] (by decide)
  exact ⟨h.1 otherID cpB (by decide), h.2 carID (by decide)⟩

/-- C8: ObjectPath returns the currently mapped path when a mapping
exists; when none exists it fails with an error list carrying the
untracked-object condition, which is a constructor distinct from the
object-does-not-exist condition. -/
theorem c8_objectPath_spec (f : GenericFileFinder)
    (id : UnversionedObjectID) :
    (∀ cp, GetMapping f id = some cp →
      ObjectPath f id = Except.ok cp.path) ∧
    (GetMapping f id = none →
      ObjectPath f id =
        Except.error [FinderErr.notTracked, FinderErr.notFound id]) ∧
    (∀ j, FinderErr.notTracked ≠ FinderErr.notFound j) := by
  refine ⟨?_, ?_, fun j hc => FinderErr.noConfusion hc⟩
  · intro cp hcp
    simp [ObjectPath, hcp]
  · intro h
    simp [ObjectPath, h]

/-- Witness for C8 at concrete inputs: an unmapped identity on the empty
cache and a mapped identity after one SetMapping. -/
theorem c8_objectPath_spec_witness :
    ObjectPath emptyFinder carID =
      Except.error [FinderErr.notTracked, FinderErr.notFound carID] ∧
    ObjectPath (SetMapping emptyFinder carID cpA) carID =
      Except.ok cpA.path :=
  ⟨(c8_objectPath_spec emptyFinder carID).2.1 (by decide),
    (c8_objectPath_spec (SetMapping emptyFinder carID cpA) carID).1 cpA
      (by decide)⟩

/-- C9: DeleteMapping on a tracked identity removes it from the identity
view and from the identity set stored under its mapped path; on an
untracked identity the call returns the entire state unchanged and
reports no error. -/
theorem c9_deleteMapping_spec (f : GenericFileFinder)
    (id : UnversionedObjectID) :
    (∀ cp, getMapping f id = some cp →
      GetMapping (DeleteMapping f id) id = none ∧
      ∀ t, (DeleteMapping f id).pathToIDs cp.path = some t → id ∉ t) ∧
    (getMapping f id = none → DeleteMapping f id = f) := by
  constructor
  · intro cp hcp
    constructor
    · rw [GetMapping, DeleteMapping_tracked f id cp hcp]
      show lookupBranch (eraseBranch f.branch id) id = none
      rw [lookupBranch_eraseBranch, if_pos rfl]
    · intro t ht
      rw [DeleteMapping_tracked f id cp hcp] at ht
      have ht' : (if cp.path = cp.path then
          if ((f.pathToIDs cp.path).getD ∅).erase id = ∅ then none
          else some (((f.pathToIDs cp.path).getD ∅).erase id)
        else f.pathToIDs cp.path) = some t := ht
      rw [if_pos rfl] at ht'
      by_cases hz : ((f.pathToIDs cp.path).getD ∅).erase id = ∅
      · rw [if_pos hz] at ht'
        exact absurd ht' (by simp)
      · rw [if_neg hz] at ht'
        obtain rfl := Option.some.inj ht'
        exact Finset.not_mem_erase id _
  · exact DeleteMapping_not_tracked f id

/-- Witness for C9 at concrete inputs: deleting the tracked carID after
one SetMapping, and deleting on the empty cache. -/
theorem c9_deleteMapping_spec_witness :
    (GetMapping (DeleteMapping (SetMapping emptyFinder carID cpA) carID)
        carID = none ∧
      ∀ t, (DeleteMapping (SetMapping emptyFinder carID cpA)
          carID).pathToIDs cpA.path = some t → carID ∉ t) ∧
    DeleteMapping emptyFinder carID = emptyFinder :=
  ⟨(c9_deleteMapping_spec (SetMapping emptyFinder carID cpA) carID).1 cpA
      (by decide),
    (c9_deleteMapping_spec emptyFinder carID).2 (by decide)⟩

/-- C10: in every cache state reachable from the empty cache by
SetMapping, DeleteMapping and ResetMappings calls, every path present in
the path-to-identities view maps to a non-empty identity set, so
ObjectsAt either fails with the not-tracked error or returns a non-empty
set. -/
theorem c10_paths_nonempty (f : GenericFileFinder)
    (h : ReachableCache f) :
    PathInv f ∧
    ∀ p, ObjectsAt f p = Except.error FinderErr.notTracked ∨
      ∃ t, ObjectsAt f p = Except.ok t ∧ t ≠ ∅ := by
  have hinv : PathInv f := by
    induction h with
    | empty => intro p t ht; exact absurd ht (by simp [emptyFinder])
    | set f id cp _ ih => exact pathInv_SetMapping f id cp ih
    | del f id _ ih => exact pathInv_DeleteMapping f id ih
    | reset f m _ ih => exact pathInv_ResetMappings f m ih
  refine ⟨hinv, fun p => ?_⟩
  cases hp : f.pathToIDs p with
  | none => exact Or.inl (by simp [ObjectsAt, hp])
  | some t => exact Or.inr ⟨t, by simp [ObjectsAt, hp], hinv p t hp⟩

/-- Witness for C10 at the concrete reachable state with carID mapped to
path "a". -/
theorem c10_paths_nonempty_witness :
    PathInv (SetMapping emptyFinder carID cpA) ∧
    ∀ p, ObjectsAt (SetMapping emptyFinder carID cpA) p =
        Except.error FinderErr.notTracked ∨
      ∃ t, ObjectsAt (SetMapping emptyFinder carID cpA) p =
        Except.ok t ∧ t ≠ ∅ :=
  c10_paths_nonempty _
    (ReachableCache.set _ carID cpA ReachableCache.empty)

/-- Merging a tag into a stack whose adjacent entries always include a
Move preserves that shape: no merge rule of step 2d ever creates two
adjacent non-Move entries. -/
theorem mergeTag_chain : ∀ (s : List FileEventType) (t : FileEventType),
    List.Chain' moveAdj s → List.Chain' moveAdj (mergeTag s t)
  | [], t, _ => List.chain'_singleton t
  | .move :: rest, t, h => by
    have hm : mergeTag (.move :: rest) t = t :: .move :: rest := by
      cases t <;> rfl
    rw [hm]
    refine List.chain'_cons'.mpr ⟨?_, h⟩
    intro b hb
    simp only [List.head?_cons, Option.mem_def, Option.some.injEq] at hb
    exact Or.inr hb.symm
  | .delete :: [], .modify, _ => List.chain'_singleton _
  | .delete :: b :: r, .modify, h => by
    have hc := List.chain'_cons.mp h
    refine List.chain'_cons.mpr ⟨?_, hc.2⟩
    cases hc.1 with
    | inl h1 => exact FileEventType.noConfusion h1
    | inr h2 => exact Or.inr h2
  | .modify :: [], .delete, _ => List.chain'_nil
  | .modify :: b :: r, .delete, h => (List.chain'_cons.mp h).2
  | .delete :: rest, .delete, h => h
  | .modify :: rest, .modify, h => h
  | .delete :: rest, .move, h =>
    List.chain'_cons'.mpr ⟨fun _ _ => Or.inl rfl, h⟩
  | .modify :: rest, .move, h =>
    List.chain'_cons'.mpr ⟨fun _ _ => Or.inl rfl, h⟩

/-- One step of the concatenation pass preserves the no-adjacent-non-Move
shape of the output stack. -/
theorem concatStep_chain (stack : List FileEventType) (pending : Bool)
    (e : NotifyKind) (h : List.Chain' moveAdj stack) :
    List.Chain' moveAdj (concatStep (stack, pending) e).1 := by
  cases pending <;> cases e <;>
    first
    | exact h
    | exact mergeTag_chain _ _ h
    | exact mergeTag_chain _ _ (mergeTag_chain _ _ h)
    | exact List.chain'_cons'.mpr ⟨fun _ _ => Or.inl rfl, h⟩

/-- The whole concatenation fold preserves the no-adjacent-non-Move shape
of the output stack. -/
theorem foldl_concatStep_chain (events : List NotifyKind) :
    ∀ s : List FileEventType × Bool, List.Chain' moveAdj s.1 →
      List.Chain' moveAdj (events.foldl concatStep s).1 := by
  induction events with
  | nil => intro s h; exact h
  | cons e rest ih =>
    intro s h
    rw [List.foldl_cons]
    exact ih _ (concatStep_chain s.1 s.2 e h)

/-- Every engine output has the no-adjacent-non-Move shape: two adjacent
output entries never are both Modify/Delete. -/
theorem concatenateEvents_chain (events : List NotifyKind) :
    List.Chain' moveAdj (concatenateEvents events) := by
  have hr := foldl_concatStep_chain events ([], false) List.chain'_nil
  show List.Chain' moveAdj
    (finishConcat (events.foldl concatStep ([], false)))
  rcases hE : events.foldl concatStep ([], false) with ⟨stack, pending⟩
  rw [hE] at hr
  have hfin : List.Chain' moveAdj
      (if pending then mergeTag stack .modify else stack) := by
    cases pending
    · exact hr
    · exact mergeTag_chain _ _ hr
  show List.Chain' moveAdj
    ((if pending then mergeTag stack .modify else stack).reverse)
  rw [List.chain'_reverse]
  exact hfin.imp fun a b hab => Or.symm hab

/-- Running the concatenation fold over the re-expansion of an
already-reduced sequence pushes exactly that sequence back onto the
stack, provided the junction between the sequence and the prior stack top
also satisfies the Move-adjacency condition. -/
theorem foldl_expandEvents (y : List FileEventType) :
    ∀ stack : List FileEventType, List.Chain' moveAdj y →
      (∀ s ∈ stack.head?, ∀ a ∈ y.head?, moveAdj s a) →
      (expandEvents y).foldl concatStep (stack, false) =
        (y.reverse ++ stack, false) := by
  induction y with
  | nil =>
    intro stack _ _
    simp [expandEvents]
  | cons a rest ih =>
    intro stack hch hj
    have hch' := List.chain'_cons'.mp hch
    show (expandTag a ++ expandEvents rest).foldl concatStep
        (stack, false) = _
    rw [List.foldl_append]
    have hstep : (expandTag a).foldl concatStep (stack, false) =
        (a :: stack, false) := by
      cases a with
      | move => rfl
      | modify =>
        cases stack with
        | nil => rfl
        | cons s0 r =>
          have hs : moveAdj s0 .modify := hj s0 rfl .modify rfl
          cases hs with
          | inl h1 => subst h1; rfl
          | inr h2 => exact FileEventType.noConfusion h2
      | delete =>
        cases stack with
        | nil => rfl
        | cons s0 r =>
          have hs : moveAdj s0 .delete := hj s0 rfl .delete rfl
          cases hs with
          | inl h1 => subst h1; rfl
          | inr h2 => exact FileEventType.noConfusion h2
    rw [hstep]
    have hrec := ih (a :: stack) hch'.2 (by
      intro s hs b hb
      have hsa : a = s := by
        simp only [List.head?_cons, Option.mem_def,
          Option.some.injEq] at hs
        exact hs
      subst hsa
      exact hch'.1 b hb)
    rw [hrec]
    simp

/-- C5 (spec-modelled engine): the Event Concatenation Engine maps the
five literal test bursts [Delete, Write, MoveIn], [Write, Delete,
Delete], [Write, MoveIn, MoveOut, Delete], [Delete, Write] and
[Write, Delete] to exactly [Modify], [Delete], [Modify, Move, Delete],
[Modify] and [] respectively, as `TestEventConcatenation` demands. -/
theorem c5_concatenation_literal_bursts :
    concatenateEvents [.delete, .write, .moveIn] = [.modify] ∧
    concatenateEvents [.write, .delete, .delete] = [.delete] ∧
    concatenateEvents [.write, .moveIn, .moveOut, .delete] =
      [.modify, .move, .delete] ∧
    concatenateEvents [.delete, .write] = [.modify] ∧
    concatenateEvents [.write, .delete] = ([] : List FileEventType) := by
  decide

/-- C7 (spec-modelled engine): for every raw notification burst, running
the engine on the re-expansion of its own output (Modify→Write,
Delete→Delete, Move→MoveIn then MoveOut) yields the same output sequence
unchanged. -/
theorem c7_concatenation_idempotent (events : List NotifyKind) :
    concatenateEvents (expandEvents (concatenateEvents events)) =
      concatenateEvents events := by
  have hch := concatenateEvents_chain events
  show finishConcat ((expandEvents (concatenateEvents events)).foldl
      concatStep ([], false)) = concatenateEvents events
  rw [foldl_expandEvents (concatenateEvents events) [] hch (by simp)]
  show ((concatenateEvents events).reverse ++ []).reverse =
    concatenateEvents events
  simp
